import Mathlib

/-
Verification of the metric engine and checkpoint logic of the PyTorch_Seg
repository (src/utils.py and src/main.py).

Label maps are embedded as flat lists of natural numbers (the code flattens
all tensors before computing its metrics), and real-valued metrics as exact
rationals.  Fallible Python code (IndexError, KeyError, ZeroDivisionError)
is embedded with Option / explicit error results.
-/

namespace PyTorchSeg

/-- Embeds the smoothing constant of dice_coef (src/utils.py line 252). -/
def smooth : ℚ := 1 / 10000

/-- Number of true entries of a boolean mask: np.sum on a boolean array. -/
def countTrue (l : List Bool) : ℕ := l.countP id

/-- Embeds dice_coef (src/utils.py lines 246-253).  The arguments are already
flat boolean masks, as produced by dice_coef_multilabel; np.sum(y_true_f *
y_pred_f) on boolean arrays counts the positions where both masks are true.
The embedding assumes equal-shape masks, as in every call site. -/
def dice_coef (y_pred y_true : List Bool) : ℚ :=
  (2 * (((y_true.zip y_pred).countP (fun ab => ab.1 && ab.2) : ℕ) : ℚ) + smooth) /
    (((countTrue y_true : ℕ) : ℚ) + ((countTrue y_pred : ℕ) : ℚ) + smooth)

/-- Embeds np.unique: the sorted list of distinct values of an array. -/
def npUnique (l : List ℕ) : List ℕ := List.insertionSort (fun a b => a ≤ b) l.dedup

/-- Number of positions where both maps carry class v:
np.sum(np.logical_and(label == v, pred == v)) for equal-shape maps. -/
def matchCount (a b : List ℕ) (v : ℕ) : ℕ :=
  (a.zip b).countP (fun p => decide (p.1 = v ∧ p.2 = v))

/-- Number of positions where either map carries class v:
np.sum(np.logical_or(label == v, pred == v)) for equal-shape maps. -/
def orCount (a b : List ℕ) (v : ℕ) : ℕ :=
  (a.zip b).countP (fun p => decide (p.1 = v ∨ p.2 = v))

/-- Embeds compute_iou (src/utils.py lines 229-244): for each value in the
sorted set of labels present in the ground truth, intersection over union of
the two binary masks.  For values present in label the union is never empty. -/
def compute_iou (pred label : List ℕ) : List ℚ :=
  (npUnique label).map (fun v => ((matchCount pred label v : ℕ) : ℚ) / ((orCount pred label v : ℕ) : ℚ))

/-- Embeds dice_coef_multilabel (src/utils.py lines 255-263).  num_labels is
len(y_true.unique()), the number of distinct values present in the ground
truth, and the loop runs over the indices 0 .. num_labels-1 (not over the
distinct values themselves). -/
def dice_coef_multilabel (y_pred y_true : List ℕ) : List ℚ :=
  (List.range (npUnique y_true).length).map (fun index =>
    dice_coef (y_true.map (fun x => decide (x = index))) (y_pred.map (fun x => decide (x = index))))

/-- Embeds the counting loop of compute_global_accuracy (src/utils.py lines
269-271): for i in range(len(label)), access pred[i] and compare.  Running out
of pred entries while label entries remain is Python's IndexError, hence none. -/
def cgaCount : List ℕ → List ℕ → Option ℕ
  | _, [] => some 0
  | [], _ :: _ => none
  | p :: ps, l :: ls => (cgaCount ps ls).map (fun c => if p = l then c + 1 else c)

/-- Embeds compute_global_accuracy (src/utils.py lines 266-272).  After the
loop the count is divided by len(label); float division by zero raises
ZeroDivisionError in Python, hence none on an empty label map. -/
def computeGlobalAccuracy (pred label : List ℕ) : Option ℚ :=
  match cgaCount pred label with
  | none => none
  | some count => if label.length = 0 then none else some ((count : ℚ) / ((label.length : ℕ) : ℚ))

/-- Embeds the counting loop of compute_class_accuracies (src/utils.py lines
280-283): for each position where pred[i] == label[i], increment
count[int(pred[i])].  Accessing pred past its end, or a count slot at an index
not below num_classes, is Python's IndexError, hence none. -/
def ccaCount : List ℕ → List ℕ → List ℚ → Option (List ℚ)
  | _, [], cnt => some cnt
  | [], _ :: _, _ => none
  | p :: ps, l :: ls, cnt =>
    if p = l then
      if p < cnt.length then ccaCount ps ls (cnt.set p (cnt.getD p 0 + 1)) else none
    else ccaCount ps ls cnt

/-- Embeds compute_class_accuracies (src/utils.py lines 275-295).  total[v] is
(label == v).sum() for v in range(num_classes); the final loop substitutes 0.0
when total[i] == 0 and divides count[i] by total[i] otherwise. -/
def computeClassAccuracies (pred label : List ℕ) (numClasses : ℕ) : Option (List ℚ) :=
  let total := (List.range numClasses).map (fun v => label.count v)
  match ccaCount pred label (List.replicate numClasses 0) with
  | none => none
  | some count =>
    some ((List.range total.length).map (fun i =>
      if total.getD i 0 = 0 then 0 else count.getD i 0 / ((total.getD i 0 : ℕ) : ℚ)))

/-- The per-class accuracy exactly as the claim words it, for comparison with
the source function: fraction of correctly predicted pixels among pixels
PREDICTED as the class, 0.0 when no pixel is predicted as the class. -/
def classAccuraciesPredDenom (pred label : List ℕ) (numClasses : ℕ) : List ℚ :=
  (List.range numClasses).map (fun c =>
    if pred.count c = 0 then 0 else ((matchCount pred label c : ℕ) : ℚ) / ((pred.count c : ℕ) : ℚ))

/-- The per-class accuracy the source actually computes, stated closed-form:
fraction of correctly predicted pixels among pixels whose GROUND-TRUTH label
is the class, 0.0 when the class is absent from the ground truth. -/
def classAccuraciesGT (pred label : List ℕ) (numClasses : ℕ) : List ℚ :=
  (List.range numClasses).map (fun c =>
    if label.count c = 0 then 0 else ((matchCount pred label c : ℕ) : ℚ) / ((label.count c : ℕ) : ℚ))

/-- Modelled from the spec: the per-class precision computed by the external
sklearn precision_score call in evaluate_segmentation (src/utils.py line 305),
with undefined values substituted by 0.0 on an empty denominator. -/
def precisionScore (pred label : List ℕ) (c : ℕ) : ℚ :=
  if pred.count c = 0 then 0 else ((matchCount pred label c : ℕ) : ℚ) / ((pred.count c : ℕ) : ℚ)

/-- Modelled from the spec: the per-class recall computed by the external
sklearn recall_score call in evaluate_segmentation (src/utils.py line 306),
with zero_division = 0. -/
def recallScore (pred label : List ℕ) (c : ℕ) : ℚ :=
  if label.count c = 0 then 0 else ((matchCount pred label c : ℕ) : ℚ) / ((label.count c : ℕ) : ℚ)

/-- Embeds evaluate_segmentation (src/utils.py lines 297-319) restricted to the
repository's own metric functions: the sklearn precision/recall calls are
external-library collaborators and are omitted (the per-label indexing loop
fails on their vectors for exactly the same inputs).  The loop over
range(MASK_LABELS) indexes the iou and dice vectors; an out-of-range index is
Python's IndexError, hence none. -/
def evaluate_segmentation (pred label : List ℕ) (maskLabels : ℕ) : Option (ℚ × List (ℚ × ℚ)) :=
  match computeGlobalAccuracy pred label with
  | none => none
  | some ga =>
    match (List.range maskLabels).mapM (fun i =>
      match (compute_iou pred label).get? i, (dice_coef_multilabel pred label).get? i with
      | some a, some b => some (a, b)
      | _, _ => none) with
    | none => none
    | some l => some (ga, l)

/-- Action taken by one invocation of the early-stopping policy. -/
inductive ESAction where
  | observe
  | improve
  | noImprove
deriving DecidableEq

/-- Early-stopping state (spec section 3): best_loss starts at +infinity
(embedded as none), counter at 0, early_stop at false. -/
structure ESState where
  best_loss : Option ℚ
  counter : ℕ
  early_stop : Bool
deriving DecidableEq

/-- Initial early-stopping state. -/
def esInit : ESState := { best_loss := none, counter := 0, early_stop := false }

/-- Comparison against the best loss so far; every loss improves on +infinity. -/
def lossLt (loss : ℚ) (best : Option ℚ) : Bool :=
  match best with
  | none => true
  | some b => decide (loss < b)

/-- Modelled from the spec: the EarlyStopping transition (spec section 4.3);
the early_stopping module imported by src/main.py is not part of src/.
1. epoch < wait: observe only.  2. loss < best_loss: record new best, reset
counter, persist checkpoint.  3. otherwise increment counter and raise the
early_stop flag once counter reaches patience. -/
def esStep (patience wait : ℕ) (s : ESState) (epoch : ℕ) (loss : ℚ) : ESState × ESAction :=
  if epoch < wait then (s, ESAction.observe)
  else if lossLt loss s.best_loss then
    ({ best_loss := some loss, counter := 0, early_stop := s.early_stop }, ESAction.improve)
  else
    let c := s.counter + 1
    ({ s with counter := c, early_stop := s.early_stop || decide (patience ≤ c) }, ESAction.noImprove)

/-- Runs the early-stopping policy once per epoch over a loss sequence,
collecting the action trace. -/
def esRunAux (patience wait : ℕ) : ESState → ℕ → List ℚ → ESState × List ESAction
  | s, _, [] => (s, [])
  | s, epoch, loss :: rest =>
    let sa := esStep patience wait s epoch loss
    let tail := esRunAux patience wait sa.1 (epoch + 1) rest
    (tail.1, sa.2 :: tail.2)

/-- Policy run from the initial state at epoch 0. -/
def esRun (patience wait : ℕ) (losses : List ℚ) : ESState × List ESAction :=
  esRunAux patience wait esInit 0 losses

/-- Embeds the early-stop check of train_loop (src/main.py lines 162-170): the
loop invokes the policy once per epoch and breaks as soon as the early_stop
flag is true.  Returns the number of epochs executed. -/
def trainLoopEpochs (patience wait : ℕ) : ESState → ℕ → List ℚ → ℕ
  | _, _, [] => 0
  | s, epoch, loss :: rest =>
    let s' := (esStep patience wait s epoch loss).1
    if s'.early_stop then 1 else 1 + trainLoopEpochs patience wait s' (epoch + 1) rest

/-- Abstraction of a checkpoint dictionary for load_checkpoint: which of the
keys state_dict / optimizer / scheduler / epoch are present, the stored epoch
value, and whether the dictionary as a whole loads as a bare model state dict. -/
structure Checkpoint where
  hasStateDict : Bool
  hasOptimizer : Bool
  hasScheduler : Bool
  hasEpoch : Bool
  epochVal : ℕ
  bareLoadable : Bool
deriving DecidableEq

/-- Outcome of load_checkpoint: a normal return (None or the stored epoch), an
uncaught KeyError on the named key, or the descriptive ValueError naming the
expected key. -/
inductive LoadResult where
  | ok (epoch : Option ℕ)
  | keyError (key : String)
  | valueError (expected : String)
deriving DecidableEq

/-- Embeds load_checkpoint (src/utils.py lines 25-40).  The structured path
reads checkpoint[state_dict] and, when an optimizer / scheduler is supplied,
checkpoint[optimizer] / checkpoint[scheduler]; any missing key raises KeyError,
which is caught and falls through to the bare path.  The bare path calls
model.load_state_dict on the whole dictionary (modelled, per the code's own
except clause, as raising KeyError exactly when the dictionary is not a
loadable bare state dict), converts that KeyError into the descriptive
ValueError, and otherwise executes return checkpoint[epoch], whose KeyError
is not caught. -/
def load_checkpoint (c : Checkpoint) (optimizerGiven schedulerGiven : Bool) : LoadResult :=
  if c.hasStateDict && (!optimizerGiven || c.hasOptimizer) && (!schedulerGiven || c.hasScheduler) then
    LoadResult.ok none
  else if c.bareLoadable then
    if c.hasEpoch then LoadResult.ok (some c.epochVal) else LoadResult.keyError "epoch"
  else
    LoadResult.valueError "state_dict"

lemma smooth_pos : 0 < smooth := by norm_num [smooth]

lemma countP_zip_self_and (m : List Bool) :
    (m.zip m).countP (fun ab => ab.1 && ab.2) = countTrue m := by
  induction m with
  | nil => rfl
  | cons a t ih => cases a <;> simp [countTrue, List.countP_cons, ih]

lemma dice_coef_self (m : List Bool) : dice_coef m m = 1 := by
  unfold dice_coef
  rw [countP_zip_self_and]
  have hs : (0 : ℚ) < smooth := smooth_pos
  have h0 : (0 : ℚ) ≤ ((countTrue m : ℕ) : ℚ) := Nat.cast_nonneg _
  have hden : ((countTrue m : ℕ) : ℚ) + ((countTrue m : ℕ) : ℚ) + smooth ≠ 0 := by linarith
  rw [show (2 : ℚ) * ((countTrue m : ℕ) : ℚ) + smooth =
      ((countTrue m : ℕ) : ℚ) + ((countTrue m : ℕ) : ℚ) + smooth by ring]
  exact div_self hden

lemma countP_zip_and_comm (a b : List Bool) :
    (a.zip b).countP (fun ab => ab.1 && ab.2) = (b.zip a).countP (fun ab => ab.1 && ab.2) := by
  induction a generalizing b with
  | nil => cases b <;> rfl
  | cons x t ih =>
    cases b with
    | nil => rfl
    | cons y u => simp [List.countP_cons, ih u, Bool.and_comm]

lemma matchCount_self (l : List ℕ) (v : ℕ) : matchCount l l v = l.count v := by
  induction l with
  | nil => rfl
  | cons a t ih => simp [matchCount, List.countP_cons, List.count_cons, ih] at *; omega

lemma orCount_self (l : List ℕ) (v : ℕ) : orCount l l v = l.count v := by
  induction l with
  | nil => rfl
  | cons a t ih => simp [orCount, List.countP_cons, List.count_cons, ih] at *; omega

lemma matchCount_cons (p l : ℕ) (ps ls : List ℕ) (c : ℕ) :
    matchCount (p :: ps) (l :: ls) c = matchCount ps ls c + if p = c ∧ l = c then 1 else 0 := by
  simp [matchCount, List.countP_cons]

lemma countP_zip_map_decide (a b : List ℕ) (c : ℕ) :
    ((a.map (fun x => decide (x = c))).zip (b.map (fun x => decide (x = c)))).countP
      (fun ab => ab.1 && ab.2) = matchCount a b c := by
  induction a generalizing b with
  | nil => cases b <;> rfl
  | cons x t ih =>
    cases b with
    | nil => rfl
    | cons y u => simp [matchCount, List.countP_cons, ih u, Bool.decide_and]

lemma countTrue_map_decide (l : List ℕ) (c : ℕ) :
    countTrue (l.map (fun x => decide (x = c))) = l.count c := by
  induction l with
  | nil => rfl
  | cons x t ih => simp [countTrue, List.countP_cons, List.count_cons, ih] at *; omega

lemma mem_npUnique {v : ℕ} {l : List ℕ} (h : v ∈ npUnique l) : v ∈ l := by
  have h1 : v ∈ l.dedup :=
    (List.perm_insertionSort (fun a b => a ≤ b) l.dedup).mem_iff.mp h
  exact List.mem_dedup.mp h1

lemma cgaCount_nil (pred : List ℕ) : cgaCount pred [] = some 0 := by
  cases pred <;> rfl

lemma cgaCount_self (l : List ℕ) : cgaCount l l = some l.length := by
  induction l with
  | nil => rfl
  | cons a t ih => simp [cgaCount, ih]

lemma cgaCount_short (pred label : List ℕ) (h : pred.length < label.length) :
    cgaCount pred label = none := by
  induction pred generalizing label with
  | nil =>
    cases label with
    | nil => simp at h
    | cons l ls => rfl
  | cons p ps ih =>
    cases label with
    | nil => simp at h
    | cons l ls =>
      simp only [cgaCount]
      rw [ih ls (by simpa using h)]
      rfl

lemma cgaCount_take (pred label : List ℕ) (h : label.length ≤ pred.length) :
    cgaCount pred label = cgaCount (pred.take label.length) label := by
  induction label generalizing pred with
  | nil => rw [cgaCount_nil, List.length_nil, List.take_zero, cgaCount_nil]
  | cons l ls ih =>
    cases pred with
    | nil => simp at h
    | cons p ps =>
      simp only [List.length_cons, List.take_succ_cons, cgaCount]
      rw [ih ps (by simpa using h)]

lemma cgaCount_total (pred label : List ℕ) (h : label.length ≤ pred.length) :
    ∃ c, cgaCount pred label = some c := by
  induction label generalizing pred with
  | nil => exact ⟨0, cgaCount_nil pred⟩
  | cons l ls ih =>
    cases pred with
    | nil => simp at h
    | cons p ps =>
      obtain ⟨c, hc⟩ := ih ps (by simpa using h)
      exact ⟨if p = l then c + 1 else c, by simp [cgaCount, hc]⟩

lemma getD_map_range {α : Type} (n : ℕ) (f : ℕ → α) (i : ℕ) (h : i < n) (d : α) :
    ((List.range n).map f).getD i d = f i := by
  rw [List.getD_eq_getElem?_getD]
  rw [List.getElem?_eq_getElem (by simpa using h)]
  simp [List.getElem_map, List.getElem_range]

lemma map_range_getD (l : List ℚ) :
    (List.range l.length).map (fun c => l.getD c 0) = l := by
  apply List.ext_getElem
  · simp
  · intro i h1 h2
    rw [List.getElem_map, List.getElem_range]
    rw [List.getD_eq_getElem?_getD, List.getElem?_eq_getElem h2]
    rfl

lemma getD_replicate_zero (n i : ℕ) (h : i < n) :
    (List.replicate n (0 : ℚ)).getD i 0 = 0 := by
  rw [List.getD_eq_getElem?_getD]
  rw [List.getElem?_eq_getElem (by simpa using h)]
  simp [List.getElem_replicate]

/-- C9: for every binary mask m, including the all-zero (empty) mask,
dice_coef(m, m) equals exactly 1: the intersection equals the mask size s, and
the smoothing term makes the ratio (2s + eps) / (2s + eps); for two empty
masks this is eps / eps = 1. -/
theorem dice_coef_self_one (m : List Bool) : dice_coef m m = 1 := dice_coef_self m

/-- C6: the Dice coefficient is symmetric in its two arguments: for every pair
of equal-length binary masks a and b, dice_coef(a, b) = dice_coef(b, a). -/
theorem dice_coef_comm (a b : List Bool) (h : a.length = b.length) :
    dice_coef a b = dice_coef b a := by
  unfold dice_coef
  rw [countP_zip_and_comm b a]
  ring_nf

/-- Witness for dice_coef_comm at the concrete masks [true, false] and
[false, true]. -/
theorem dice_coef_comm_witness :
    ([true, false] : List Bool).length = ([false, true] : List Bool).length ∧
    dice_coef [true, false] [false, true] = dice_coef [false, true] [true, false] :=
  ⟨rfl, dice_coef_comm [true, false] [false, true] rfl⟩

/-- C10: compute_global_accuracy divides the correct-pixel count by
len(label); on an empty label map this is a float division by zero (Python
ZeroDivisionError), so no value is returned: the result is only well-defined
when the label map is non-empty. -/
theorem computeGlobalAccuracy_empty_label (pred : List ℕ) :
    computeGlobalAccuracy pred [] = none := by
  unfold computeGlobalAccuracy
  rw [cgaCount_nil]
  rfl

/-- C7 counterexample: the maps [0, 0] and [0] have mismatched shapes, yet
compute_global_accuracy raises no error and silently returns 1, comparing only
the first len(label) positions. -/
theorem computeGlobalAccuracy_mismatch_cex :
    ([0, 0] : List ℕ).length ≠ ([0] : List ℕ).length ∧
    computeGlobalAccuracy [0, 0] [0] = some 1 :=
  ⟨by decide, by norm_num [computeGlobalAccuracy, cgaCount]⟩

/-- C7 (amended): compute_global_accuracy fails immediately (with no result)
exactly when the prediction map is shorter than the label map (IndexError at
position len(pred)); when the prediction map is at least as long as a
non-empty label map, no error is surfaced and the result is silently computed
over the first len(label) positions of the prediction. -/
theorem computeGlobalAccuracy_shape_mismatch (pred label : List ℕ) :
    (pred.length < label.length → computeGlobalAccuracy pred label = none) ∧
    (label.length ≤ pred.length → label ≠ [] →
      computeGlobalAccuracy pred label =
        computeGlobalAccuracy (pred.take label.length) label ∧
      (computeGlobalAccuracy pred label).isSome = true) := by
  constructor
  · intro h
    unfold computeGlobalAccuracy
    rw [cgaCount_short pred label h]
  · intro h hne
    constructor
    · unfold computeGlobalAccuracy
      rw [cgaCount_take pred label h]
    · obtain ⟨c, hc⟩ := cgaCount_total pred label h
      unfold computeGlobalAccuracy
      rw [hc]
      have hlen : label.length ≠ 0 := by simpa [List.length_eq_zero] using hne
      simp [hlen]

/-- Witness for computeGlobalAccuracy_shape_mismatch: a shorter prediction
fails, a longer prediction silently computes over the label-length prefix. -/
theorem computeGlobalAccuracy_shape_mismatch_witness :
    computeGlobalAccuracy [0] [0, 1] = none ∧
    computeGlobalAccuracy [0, 1, 1] [0, 1] = computeGlobalAccuracy [0, 1] [0, 1] :=
  ⟨(computeGlobalAccuracy_shape_mismatch [0] [0, 1]).1 (by decide),
   (((computeGlobalAccuracy_shape_mismatch [0, 1, 1] [0, 1]).2 (by decide) (by decide)).1)⟩

/-- C2 (code bug): with num_classes = 4 and the valid equal-shape maps
pred = label = [0, 0] in which only class 0 occurs in the ground truth, the
iou and dice vectors have length 1, not 4, and evaluate_segmentation, which
indexes them at every label in range(4), fails with an IndexError instead of
producing length-4 vectors padded with 0.0. -/
theorem evaluate_segmentation_missing_class_crash :
    (compute_iou [0, 0] [0, 0]).length = 1 ∧
    (dice_coef_multilabel [0, 0] [0, 0]).length = 1 ∧
    evaluate_segmentation [0, 0] [0, 0] 4 = none := by
  refine ⟨?_, ?_, ?_⟩ <;>
    norm_num [compute_iou, dice_coef_multilabel, evaluate_segmentation, npUnique,
      List.dedup, List.insertionSort, computeGlobalAccuracy, cgaCount, List.range_succ,
      List.mapM, List.mapM.loop]

/-- C3 counterexample: for the equal-shape maps pred = label = [0, 0] with
class values in [0, 4), the multilabel Dice computation produces a single
value, not one value for every class index in [0, num_classes) = [0, 4): the
number of values is the number of distinct labels in the ground truth. -/
theorem dice_coef_multilabel_length_cex :
    (dice_coef_multilabel [0, 0] [0, 0]).length ≠ 4 := by
  norm_num [dice_coef_multilabel, npUnique, List.dedup, List.insertionSort]

/-- C1 counterexample: for pred = [0, 0], label = [0, 1], num_classes = 2,
compute_class_accuracies returns [1, 0], but the fraction of correctly
predicted pixels among pixels predicted as class 0 is 1/2 (two pixels are
predicted as class 0, one of them correctly): the code divides by ground-truth
class counts, not by predicted class counts. -/
theorem computeClassAccuracies_pred_denominator_cex :
    computeClassAccuracies [0, 0] [0, 1] 2 = some [1, 0] ∧
    classAccuraciesPredDenom [0, 0] [0, 1] 2 = [1/2, 0] ∧
    computeClassAccuracies [0, 0] [0, 1] 2 ≠
      some (classAccuraciesPredDenom [0, 0] [0, 1] 2) := by
  have h1 : computeClassAccuracies [0, 0] [0, 1] 2 = some [1, 0] := by
    norm_num [computeClassAccuracies, ccaCount, List.range_succ, List.count_cons,
      List.replicate]
  have h2 : classAccuraciesPredDenom [0, 0] [0, 1] 2 = [1/2, 0] := by
    norm_num [classAccuraciesPredDenom, matchCount, List.range_succ, List.count_cons,
      List.countP_cons]
  refine ⟨h1, h2, ?_⟩
  rw [h1, h2]
  norm_num

/-- C8 (code bug): loading a bare model-state dictionary (one that carries
none of the keys state_dict / optimizer / scheduler / epoch and loads as a
bare state dict) does not succeed: after the successful fallback load the code
executes return checkpoint[epoch], raising an uncaught KeyError on the missing
epoch key. -/
theorem load_checkpoint_bare_dict_keyerror :
    load_checkpoint
      { hasStateDict := false, hasOptimizer := false, hasScheduler := false,
        hasEpoch := false, epochVal := 0, bareLoadable := true } true true =
      LoadResult.keyError "epoch" := rfl

/-- C4 counterexample: with patience = 2, wait = 0 and the loss sequence
[1.0, 0.9, 0.95, 0.96, 0.97], the early_stop flag is already true after the
4th invocation (and still false after the 3rd), so it does not become true
exactly at the 5th call. -/
theorem early_stop_fifth_call_cex :
    (esRun 2 0 [1, 9/10, 19/20]).1.early_stop = false ∧
    (esRun 2 0 [1, 9/10, 19/20, 24/25]).1.early_stop = true := by
  refine ⟨?_, ?_⟩ <;> norm_num [esRun, esRunAux, esStep, esInit, lossLt]

/-- C4 (amended): with patience = 2, wait = 0 and the loss sequence
[1.0, 0.9, 0.95, 0.96, 0.97], the early_stop flag becomes true exactly at the
4th call, following the trace improve, improve, counter = 1, counter = 2 then
stop; the training loop checks the flag after every invocation and therefore
executes exactly 4 epochs. -/
theorem early_stop_fourth_call :
    (esRun 2 0 [1, 9/10, 19/20, 24/25]).2 =
      [ESAction.improve, ESAction.improve, ESAction.noImprove, ESAction.noImprove] ∧
    (esRun 2 0 [1, 9/10, 19/20]).1 =
      { best_loss := some (9/10), counter := 1, early_stop := false } ∧
    (esRun 2 0 [1, 9/10, 19/20, 24/25]).1 =
      { best_loss := some (9/10), counter := 2, early_stop := true } ∧
    trainLoopEpochs 2 0 esInit 0 [1, 9/10, 19/20, 24/25, 97/100] = 4 := by
  refine ⟨?_, ?_, ?_, ?_⟩ <;>
    norm_num [esRun, esRunAux, esStep, esInit, lossLt, trainLoopEpochs]

lemma count_cast_ne_zero {l : List ℕ} {v : ℕ} (h : v ∈ l) : ((l.count v : ℕ) : ℚ) ≠ 0 :=
  Nat.cast_ne_zero.mpr (Nat.pos_iff_ne_zero.mp (List.count_pos_iff.mpr h))

/-- C5: for every pair of identical equal-shape non-empty label maps, global
accuracy equals exactly 1, every entry of the iou vector equals exactly 1,
every entry of the multilabel dice vector equals exactly 1, and for every
class present in the map the per-class precision and recall equal exactly 1. -/
theorem identical_maps_perfect (l : List ℕ) (h : l ≠ []) :
    computeGlobalAccuracy l l = some 1 ∧
    (∀ x ∈ compute_iou l l, x = 1) ∧
    (∀ x ∈ dice_coef_multilabel l l, x = 1) ∧
    (∀ c ∈ l, precisionScore l l c = 1 ∧ recallScore l l c = 1) := by
  refine ⟨?_, ?_, ?_, ?_⟩
  · unfold computeGlobalAccuracy
    rw [cgaCount_self]
    have h0 : l.length ≠ 0 := by simpa [List.length_eq_zero] using h
    have h0q : ((l.length : ℕ) : ℚ) ≠ 0 := Nat.cast_ne_zero.mpr h0
    simp [h0, div_self h0q]
  · intro x hx
    unfold compute_iou at hx
    obtain ⟨v, hv, rfl⟩ := List.mem_map.mp hx
    have hvl : v ∈ l := mem_npUnique hv
    rw [matchCount_self, orCount_self]
    exact div_self (count_cast_ne_zero hvl)
  · intro x hx
    unfold dice_coef_multilabel at hx
    obtain ⟨i, hi, rfl⟩ := List.mem_map.mp hx
    exact dice_coef_self _
  · intro c hc
    have hcq : ((l.count c : ℕ) : ℚ) ≠ 0 := count_cast_ne_zero hc
    have hc0 : l.count c ≠ 0 := Nat.pos_iff_ne_zero.mp (List.count_pos_iff.mpr hc)
    constructor
    · unfold precisionScore
      rw [matchCount_self]
      simp [hc0, div_self hcq]
    · unfold recallScore
      rw [matchCount_self]
      simp [hc0, div_self hcq]

/-- Witness for identical_maps_perfect at the concrete map [0, 1]. -/
theorem identical_maps_perfect_witness :
    computeGlobalAccuracy [0, 1] [0, 1] = some 1 ∧
    precisionScore [0, 1] [0, 1] 0 = 1 ∧ recallScore [0, 1] [0, 1] 0 = 1 :=
  ⟨(identical_maps_perfect [0, 1] (by decide)).1,
   ((identical_maps_perfect [0, 1] (by decide)).2.2.2 0 (by decide)).1,
   ((identical_maps_perfect [0, 1] (by decide)).2.2.2 0 (by decide)).2⟩

lemma ccaCount_closed (ps ls : List ℕ) (cnt : List ℚ)
    (hlen : ps.length = ls.length) (hbound : ∀ x ∈ ps, x < cnt.length) :
    ccaCount ps ls cnt =
      some ((List.range cnt.length).map
        (fun c => cnt.getD c 0 + ((matchCount ps ls c : ℕ) : ℚ))) := by
  induction ps generalizing ls cnt with
  | nil =>
    cases ls with
    | nil =>
      simp only [ccaCount]
      congr 1
      have heq : (List.range cnt.length).map
          (fun c => cnt.getD c 0 + ((matchCount ([] : List ℕ) ([] : List ℕ) c : ℕ) : ℚ)) =
          (List.range cnt.length).map (fun c => cnt.getD c 0) := by
        apply List.map_congr_left
        intro c _
        simp [matchCount]
      rw [heq, map_range_getD]
    | cons l ls2 => simp at hlen
  | cons p ps2 ih =>
    cases ls with
    | nil => simp at hlen
    | cons l ls2 =>
      by_cases hpl : p = l
      · subst hpl
        have hp : p < cnt.length := hbound p (List.mem_cons_self p ps2)
        simp only [ccaCount]
        rw [if_pos trivial, if_pos hp]
        rw [ih ls2 (cnt.set p (cnt.getD p 0 + 1)) (by simpa using hlen)
            (fun x hx => by
              rw [List.length_set]
              exact hbound x (List.mem_cons_of_mem p hx))]
        congr 1
        rw [List.length_set]
        apply List.map_congr_left
        intro c hc
        have hcn : c < cnt.length := List.mem_range.mp hc
        rw [matchCount_cons]
        by_cases hcp : c = p
        · subst hcp
          have hset : (cnt.set c (cnt.getD c 0 + 1)).getD c 0 = cnt.getD c 0 + 1 := by
            rw [List.getD_eq_getElem?_getD,
              List.getElem?_eq_getElem (by simpa [List.length_set] using hcn)]
            simp [List.getElem_set_self]
          rw [hset]
          simp only [and_self, if_pos rfl]
          push_cast
          ring
        · have hpc : p ≠ c := fun hh => hcp hh.symm
          have hset : (cnt.set p (cnt.getD p 0 + 1)).getD c 0 = cnt.getD c 0 := by
            simp only [List.getD_eq_getElem?_getD]
            rw [List.getElem?_set_ne hpc]
          rw [hset]
          simp [hpc]
      · simp only [ccaCount]
        rw [if_neg hpl]
        rw [ih ls2 cnt (by simpa using hlen) (fun x hx => hbound x (List.mem_cons_of_mem p hx))]
        congr 1
        apply List.map_congr_left
        intro c _
        rw [matchCount_cons]
        have hno : ¬(p = c ∧ l = c) := fun hh => hpl (hh.1.trans hh.2.symm)
        simp [hno]

/-- C1 (amended): for equal-shape label maps with prediction values in
[0, num_classes), compute_class_accuracies returns, for each class c, the
fraction of correctly predicted pixels among pixels whose GROUND-TRUTH label
is c, and 0.0 (never NaN or a division error) when zero ground-truth pixels
carry class c; the denominator is the ground-truth class count, not the
predicted class count. -/
theorem computeClassAccuracies_gt_denominator (pred label : List ℕ) (numClasses : ℕ)
    (hlen : pred.length = label.length) (hbound : ∀ x ∈ pred, x < numClasses) :
    computeClassAccuracies pred label numClasses =
      some (classAccuraciesGT pred label numClasses) := by
  simp only [computeClassAccuracies]
  rw [ccaCount_closed pred label (List.replicate numClasses 0) hlen
      (by simpa [List.length_replicate] using hbound)]
  simp only [List.length_replicate, List.length_map, List.length_range]
  unfold classAccuraciesGT
  congr 1
  apply List.map_congr_left
  intro i hi
  have hin : i < numClasses := List.mem_range.mp hi
  have htot : ((List.range numClasses).map (fun v => label.count v)).getD i 0 = label.count i :=
    getD_map_range numClasses _ i hin 0
  have hcnt : ((List.range numClasses).map
      (fun c => (List.replicate numClasses (0 : ℚ)).getD c 0 +
        ((matchCount pred label c : ℕ) : ℚ))).getD i 0 =
      ((matchCount pred label i : ℕ) : ℚ) := by
    rw [getD_map_range numClasses _ i hin 0, getD_replicate_zero numClasses i hin, zero_add]
  rw [htot, hcnt]

/-- Witness for computeClassAccuracies_gt_denominator at pred = [0, 1],
label = [0, 1], num_classes = 2. -/
theorem computeClassAccuracies_gt_denominator_witness :
    computeClassAccuracies [0, 1] [0, 1] 2 = some (classAccuraciesGT [0, 1] [0, 1] 2) :=
  computeClassAccuracies_gt_denominator [0, 1] [0, 1] 2 rfl (by decide)

/-- C3 (amended): for equal-shape label maps, the multilabel Dice computation
produces one value for each index c in [0, u) where u is the number of
DISTINCT values present in the ground-truth map (not num_classes), and the
value at index c equals (2 |A ∩ B| + eps) / (|A| + |B| + eps) with
eps = 1e-4 and A, B the binary masks pred == c and label == c. -/
theorem dice_coef_multilabel_formula (y_pred y_true : List ℕ)
    (hlen : y_pred.length = y_true.length) :
    (dice_coef_multilabel y_pred y_true).length = (npUnique y_true).length ∧
    ∀ c, c < (npUnique y_true).length →
      (dice_coef_multilabel y_pred y_true).getD c 0 =
        (2 * ((matchCount y_pred y_true c : ℕ) : ℚ) + smooth) /
          (((y_pred.count c : ℕ) : ℚ) + ((y_true.count c : ℕ) : ℚ) + smooth) := by
  constructor
  · simp [dice_coef_multilabel]
  · intro c hc
    unfold dice_coef_multilabel
    rw [getD_map_range _ _ c hc]
    unfold dice_coef
    rw [countP_zip_map_decide y_pred y_true c, countTrue_map_decide, countTrue_map_decide]

/-- Witness for dice_coef_multilabel_formula at y_pred = y_true = [0, 1],
index 0. -/
theorem dice_coef_multilabel_formula_witness :
    (dice_coef_multilabel [0, 1] [0, 1]).length = (npUnique [0, 1]).length ∧
    (dice_coef_multilabel [0, 1] [0, 1]).getD 0 0 =
      (2 * ((matchCount [0, 1] [0, 1] 0 : ℕ) : ℚ) + smooth) /
        (((([0, 1] : List ℕ).count 0 : ℕ) : ℚ) + ((([0, 1] : List ℕ).count 0 : ℕ) : ℚ) + smooth) :=
  ⟨(dice_coef_multilabel_formula [0, 1] [0, 1] rfl).1,
   (dice_coef_multilabel_formula [0, 1] [0, 1] rfl).2 0 (by decide)⟩

end PyTorchSeg
